import Mathlib

/-!
Verification of the `resampling` module (src/resampling.py) against its
natural-language specification.

Modelling conventions, chosen to keep every definition executable and exact:

* numpy scalars are modelled by exact rationals `ℚ`; a float that may be NaN
  (numpy's mean/std of an empty slice is NaN, and NaN propagates) is modelled
  by `NpFloat` with an explicit `nan` constructor.
* Python exceptions are modelled by `Except PyError`.  The module itself never
  raises explicitly, but its numpy/math calls can: fancy indexing raises
  `IndexError` for an out-of-bounds index, Python 2 integer or float division
  by zero raises `ZeroDivisionError`, `math.sqrt` of a negative raises
  `ValueError` ("math domain error"), and `numpy.random.randint(low, high)`
  raises `ValueError` when `low >= high`.
* `math.sqrt` results only ever appear multiplied into the returned error
  value, and everything under the square roots is rational, so the error
  component of each estimator is represented by its SQUARE, an exact rational.
  Since x ↦ x² is injective on the non-negative reals (and the represented
  quantities — a square root times a standard deviation — are non-negative),
  no information is lost: two error values agree iff their squares agree.
  `pySqrtSq x` is the square of `math.sqrt x`, i.e. `x` itself, and it raises
  exactly when `math.sqrt x` raises.
* The pseudo-random source is an external collaborator of the module
  (`numpy.random.randint` / `numpy.random.permutation`); it is modelled as an
  oracle parameter (`rand`, `perm`) giving the draw of each iteration, with
  the interface contract (values in range / a permutation of `range n`)
  stated as a hypothesis of the theorems.
* A multi-dimensional numpy array is modelled by its shape together with its
  row-major flat data.
-/

namespace Resampling

/-- Python exception classes that the numpy/math calls of the module can
raise: `IndexError`, `ZeroDivisionError` and `ValueError` (the latter both
for `math.sqrt` of a negative and for `numpy.random.randint` with
`low >= high`). -/
inductive PyError where
  | indexError
  | zeroDivisionError
  | valueError
deriving DecidableEq, Repr

/-- A numpy floating scalar: either NaN or an exact rational value. -/
inductive NpFloat where
  | nan
  | val (q : ℚ)
deriving DecidableEq, Repr

/-- Abstract numeric dtypes that can be passed as the `dtype` override.  In
the exact-rational model a dtype has no numeric effect (it only selects a
floating precision in the source), but which dtype every `numpy.mean` call
receives is tracked separately by `array_mean_indices_dtypes`. -/
inductive DType where
  | float32
  | float64
deriving DecidableEq, Repr

/-- A dense numpy array: its shape and its row-major flat data. -/
structure NpArray where
  shape : List ℕ
  data : List ℚ
  sizeEq : data.length = shape.prod

/-- Total number of elements, numpy's `a.size`. -/
def NpArray.size (a : NpArray) : ℕ := a.data.length

/-- Scalar access `xs[i]` on a flat array with numpy index semantics: a
negative index wraps around once, anything outside `[-len, len)` raises
`IndexError`. -/
def npGetFlat (xs : List ℚ) (i : ℤ) : Except PyError ℚ :=
  if 0 ≤ i ∧ i < (xs.length : ℤ) then .ok (xs.getD i.toNat 0)
  else if -(xs.length : ℤ) ≤ i ∧ i < 0 then .ok (xs.getD (xs.length - (-i).toNat) 0)
  else .error .indexError

/-- Evaluate a fallible function over a list, stopping at the first raised
exception — the evaluation order of a Python list comprehension. -/
def exceptMap (f : α → Except PyError β) : List α → Except PyError (List β)
  | [] => .ok []
  | x :: xs => do
    let y ← f x
    let ys ← exceptMap f xs
    return (y :: ys)

/-- numpy fancy indexing `xs[indices]` on a flat array. -/
def npSelect (xs : List ℚ) (indices : List ℤ) : Except PyError (List ℚ) :=
  exceptMap (npGetFlat xs) indices

/-- `numpy.mean(xs, dtype=dtype)` over the selected elements: NaN on an empty
selection.  The dtype has no numeric effect in the exact model. -/
def npMean (dtype : Option DType) (xs : List ℚ) : NpFloat :=
  if xs.length = 0 then .nan else .val (xs.sum / (xs.length : ℚ))

/-- Extract the rational values of a list of floats, `none` as soon as one of
them is NaN. -/
def floatVals : List NpFloat → Option (List ℚ)
  | [] => some []
  | .nan :: _ => none
  | .val q :: xs => (floatVals xs).map (fun l => q :: l)

/-- `numpy.mean` of a Python list of floats: NaN if the list is empty or
contains a NaN. -/
def npMeanF (xs : List NpFloat) : NpFloat :=
  match floatVals xs with
  | none => .nan
  | some qs => if qs.length = 0 then .nan else .val (qs.sum / (qs.length : ℚ))

/-- The square of `numpy.std` of a Python list of floats (default `ddof=0`,
i.e. `mean(abs(x - x.mean())**2)`): NaN if the list is empty or contains a
NaN. -/
def npStdSq (xs : List NpFloat) : NpFloat :=
  match floatVals xs with
  | none => .nan
  | some qs =>
    if qs.length = 0 then .nan
    else .val ((qs.map (fun x => (x - qs.sum / (qs.length : ℚ)) ^ 2)).sum / (qs.length : ℚ))

/-- Multiplication of a (non-NaN) float scalar with a possibly-NaN float,
IEEE style: any product with NaN is NaN.  Used (in squared form) for the
`sqrt(...) * numpy.std(...)` error expressions. -/
def npScale (c : ℚ) : NpFloat → NpFloat
  | .nan => .nan
  | .val q => .val (c * q)

/-- The square of Python's `math.sqrt x`: raises `ValueError` ("math domain
error") exactly when `x < 0`, otherwise the square of the root, i.e. `x`. -/
def pySqrtSq (x : ℚ) : Except PyError ℚ :=
  if x < 0 then .error .valueError else .ok x

/-- Python float division: raises `ZeroDivisionError` on a zero
denominator. -/
def pyDiv (x y : ℚ) : Except PyError ℚ :=
  if y = 0 then .error .zeroDivisionError else .ok (x / y)

/-- Row-major stride of axis `k`: the product of the dimensions after it. -/
def innerStride (shape : List ℕ) (k : ℕ) : ℕ := (shape.drop (k + 1)).prod

/-- `numpy.reshape(numpy.take(a, [j,], axis=k), -1)`: the flat row-major list
of the elements of `a` whose `k`-th coordinate is `j`.  The result has
`(shape with the k-th entry replaced by 1).prod` elements; element `f` of the
result sits at flat position `(f / s) * (K * s) + j * s + f % s` of `a`,
where `s` is the stride of axis `k` and `K` its size. -/
def npTakeFlat (a : NpArray) (k j : ℕ) : List ℚ :=
  (List.range ((a.shape.set k 1).prod)).map (fun f =>
    a.data.getD ((f / innerStride a.shape k) * (a.shape.getD k 0 * innerStride a.shape k)
      + j * innerStride a.shape k + f % innerStride a.shape k) 0)

/-- Embedding of `__array_mean_indices` (src/resampling.py lines 40–43).
`func_axis = none`: one mean of the flat selection, computed with the dtype
override.  `func_axis = some k`: one mean per entry `j` along axis `k`, each
over the selection inside the flat slice fixing that axis to `j`; the source
passes no dtype to `numpy.mean` on this branch (line 43).  `a.shape[k]`
raises `IndexError` for an axis outside the shape. -/
def array_mean_indices (a : NpArray) (indices : List ℤ) (func_axis : Option ℕ)
    (dtype : Option DType) : Except PyError (List NpFloat) :=
  match func_axis with
  | none => (npSelect a.data indices).map (fun sel => [npMean dtype sel])
  | some k =>
    if k < a.shape.length then
      exceptMap (fun j => (npSelect (npTakeFlat a k j) indices).map (fun sel => npMean none sel))
        (List.range (a.shape.getD k 0))
    else .error .indexError

/-- Which dtype argument each `numpy.mean` call of `__array_mean_indices`
receives: line 41 (`func_axis` absent) passes `dtype=dtype`; line 43
(`func_axis` present) passes no dtype at all, one call per entry along the
axis. -/
def array_mean_indices_dtypes (a : NpArray) (func_axis : Option ℕ)
    (dtype : Option DType) : List (Option DType) :=
  match func_axis with
  | none => [dtype]
  | some k => (List.range (a.shape.getD k 0)).map (fun _ => none)

/-- Embedding of `__number_measurements` (src/resampling.py lines 45–51):
`a.size` without a function axis, the Python 2 integer division
`a.size / a.shape[func_axis]` with one (`IndexError` for a bad axis,
`ZeroDivisionError` for a zero-sized axis). -/
def number_measurements (a : NpArray) (func_axis : Option ℕ) : Except PyError ℕ :=
  match func_axis with
  | none => .ok a.size
  | some k =>
    if k < a.shape.length then
      if a.shape.getD k 0 = 0 then .error .zeroDivisionError
      else .ok (a.size / a.shape.getD k 0)
    else .error .indexError

/-- Embedding of `identity` (src/resampling.py lines 53–58).  In the
embedding a user function receives the tuple of means produced by
`__array_mean_indices` as a list; Python's unary `identity` applied by
`func(*means)` reads its single element (every call site without a function
axis passes exactly one mean). -/
def identity (xs : List NpFloat) : NpFloat := xs.headD .nan

/-- The index list `range(0, i) + range(i + 1, n)` of jackknife iteration
`i`: every position except `i`. -/
def jkIndices (i n : ℕ) : List ℤ :=
  (List.range' 0 i ++ List.range' (i + 1) (n - (i + 1))).map (fun j => Int.ofNat j)

/-- Embedding of `jackknife` (src/resampling.py lines 60–114): leave-one-out
values through `__array_mean_indices` and the user function, then the pair
`(numpy.mean(values), math.sqrt(n - 1) * numpy.std(values))`, the error
component represented by its square. -/
def jackknife (a : NpArray) (func : List NpFloat → NpFloat) (func_axis : Option ℕ)
    (dtype : Option DType) : Except PyError (NpFloat × NpFloat) := do
  let n ← number_measurements a func_axis
  let jackknife_values ← exceptMap
    (fun i => (array_mean_indices a (jkIndices i n) func_axis dtype).map func)
    (List.range n)
  let c ← pySqrtSq ((n : ℚ) - 1)
  return (npMeanF jackknife_values, npScale c (npStdSq jackknife_values))

/-- `numpy.random.randint(low, high, size)`: raises `ValueError` when
`low >= high`, otherwise returns the oracle's draw (the randomness is an
external collaborator). -/
def np_randint (low high : ℤ) (draw : List ℤ) : Except PyError (List ℤ) :=
  if low < high then .ok draw else .error .valueError

/-- Embedding of `bootstrap` (src/resampling.py lines 117–150): `iterations`
resample values, each over the index draw `rand i` of
`numpy.random.randint(0, high=n, size=n)`, then the pair
`(numpy.mean(values), sqrt(iterations/(iterations - 1)) * numpy.std(values))`,
the error component represented by its square.  `range(iterations)` of a
non-positive count is empty. -/
def bootstrap (a : NpArray) (iterations : ℤ) (func : List NpFloat → NpFloat)
    (func_axis : Option ℕ) (dtype : Option DType) (rand : ℕ → List ℤ) :
    Except PyError (NpFloat × NpFloat) := do
  let n ← number_measurements a func_axis
  let bootstrap_values ← exceptMap
    (fun i => do
      let idx ← np_randint 0 (n : ℤ) (rand i)
      (array_mean_indices a idx func_axis dtype).map func)
    (List.range iterations.toNat)
  let q ← pyDiv (iterations : ℚ) ((iterations : ℚ) - 1)
  let c ← pySqrtSq q
  return (npMeanF bootstrap_values, npScale c (npStdSq bootstrap_values))

/-- The Python slice `xs[0:stop]` for a possibly negative `stop`: clipped at
the length, and a negative stop counts from the end. -/
def pySlice0 (xs : List α) (stop : ℤ) : List α :=
  if 0 ≤ stop then xs.take stop.toNat else xs.take (xs.length - (-stop).toNat)

/-- Embedding of `subsampling` (src/resampling.py lines 153–188):
`iterations` resample values, each over the first `samples` entries (Python
slice) of the permutation draw `perm i` of
`numpy.random.permutation(range(n))`, then the pair `(numpy.mean(values),
sqrt(samples/(iterations*(iterations - 1))) * numpy.std(values))`, the error
component represented by its square. -/
def subsampling (a : NpArray) (samples iterations : ℤ) (func : List NpFloat → NpFloat)
    (func_axis : Option ℕ) (dtype : Option DType) (perm : ℕ → List ℕ) :
    Except PyError (NpFloat × NpFloat) := do
  let _n ← number_measurements a func_axis
  let subsampling_values ← exceptMap
    (fun i => (array_mean_indices a ((pySlice0 (perm i) samples).map (fun j => Int.ofNat j))
        func_axis dtype).map func)
    (List.range iterations.toNat)
  let q ← pyDiv (samples : ℚ) (((iterations * (iterations - 1) : ℤ) : ℚ))
  let c ← pySqrtSq q
  return (npMeanF subsampling_values, npScale c (npStdSq subsampling_values))

/-! Spec-side definitions, written from the specification's words (§3, §4);
the theorems below compare them with the embedded source functions. -/

/-- Spec §4.2: the index subset of leave-out position `i` — "all positions
except i". -/
def specLeaveOut (n i : ℕ) : List ℤ :=
  ((List.range n).filter (fun j => j ≠ i)).map (fun j => Int.ofNat j)

/-- Spec: the arithmetic mean of a list of numbers. -/
def specMeanQ (xs : List ℚ) : ℚ := xs.sum / (xs.length : ℚ)

/-- Spec: the population variance — the square of "the population standard
deviation (normalized by N, not N−1)". -/
def specPopVar (xs : List ℚ) : ℚ :=
  (xs.map (fun x => (x - specMeanQ xs) ^ 2)).sum / (xs.length : ℚ)

/-- Spec: the arithmetic mean of the resample values, NaN conventions as in
numpy (empty or NaN-containing collection). -/
def specMeanF (xs : List NpFloat) : NpFloat :=
  match floatVals xs with
  | none => .nan
  | some qs => if qs.length = 0 then .nan else .val (specMeanQ qs)

/-- Spec: the squared population standard deviation of the resample values,
NaN conventions as in numpy. -/
def specPopVarF (xs : List NpFloat) : NpFloat :=
  match floatVals xs with
  | none => .nan
  | some qs => if qs.length = 0 then .nan else .val (specPopVar qs)

/-- Spec §4.1: the mean of a selection, NaN on an empty selection. -/
def specMeanAt (xs : List ℚ) : NpFloat :=
  if xs.length = 0 then .nan else .val (specMeanQ xs)

/-- The `k`-th coordinate of the element at flat row-major position `f`. -/
def specAxisCoord (shape : List ℕ) (k f : ℕ) : ℕ :=
  (f / innerStride shape k) % shape.getD k 0

/-- Spec §4.1: "the 1-D slice of `array` fixing that axis to `j` (flattening
all other dimensions)" — the elements whose coordinate along axis `k` is
`j`, in row-major order. -/
def specAxisSlice (a : NpArray) (k j : ℕ) : List ℚ :=
  ((List.range a.size).filter (fun f => specAxisCoord a.shape k f = j)).map
    (fun f => a.data.getD f 0)

/-- Spec §4.1: the tuple of means the Subset-Mean Evaluator must return —
one flat mean, or one mean per entry along the function axis, each over the
given indices within the slice fixing that axis. -/
def specEval (a : NpArray) (indices : List ℤ) (func_axis : Option ℕ) : List NpFloat :=
  match func_axis with
  | none => [specMeanAt (indices.map (fun i => a.data.getD i.toNat 0))]
  | some k => (List.range (a.shape.getD k 0)).map (fun j =>
      specMeanAt (indices.map (fun i => (specAxisSlice a k j).getD i.toNat 0)))

/-- Spec §3: the measurement count — the total element count, or, with a
function axis, the total element count divided by the size along that
axis. -/
def specCount (a : NpArray) (func_axis : Option ℕ) : ℕ :=
  match func_axis with
  | none => a.size
  | some k => a.size / a.shape.getD k 0

/-- Validity of the function-axis argument: an existing axis of non-zero
size (no axis is always valid). -/
def specAxisOk (a : NpArray) (func_axis : Option ℕ) : Prop :=
  match func_axis with
  | none => True
  | some k => k < a.shape.length ∧ 0 < a.shape.getD k 0

/-- Spec §4.2: the jackknife resample values — the function applied to the
subset mean over all positions except `i`, for each `i` in `[0, n)`. -/
def specJackknifeValues (a : NpArray) (func : List NpFloat → NpFloat)
    (func_axis : Option ℕ) (dtype : Option DType) (n : ℕ) : Except PyError (List NpFloat) :=
  exceptMap (fun i => (array_mean_indices a (specLeaveOut n i) func_axis dtype).map func)
    (List.range n)

/-- Spec §4.3: the bootstrap resample values — the function applied to the
subset mean over the `i`-th random index draw, for each of `iters`
repetitions. -/
def specBootstrapValues (a : NpArray) (func : List NpFloat → NpFloat)
    (func_axis : Option ℕ) (dtype : Option DType) (rand : ℕ → List ℤ) (iters : ℕ) :
    Except PyError (List NpFloat) :=
  exceptMap (fun i => (array_mean_indices a (rand i) func_axis dtype).map func)
    (List.range iters)

/-- Spec §4.4: the subsampling resample values — the function applied to the
subset mean over the first `samples` entries of the `i`-th random
permutation, for each of `iters` repetitions. -/
def specSubsamplingValues (a : NpArray) (func : List NpFloat → NpFloat)
    (func_axis : Option ℕ) (dtype : Option DType) (perm : ℕ → List ℕ)
    (samples iters : ℕ) : Except PyError (List NpFloat) :=
  exceptMap (fun i => (array_mean_indices a (((perm i).take samples).map (fun j => Int.ofNat j))
      func_axis dtype).map func)
    (List.range iters)

/-! Concrete arrays used by the counterexample and witness theorems. -/

/-- The empty array (`numpy.array([])`). -/
def exA0 : NpArray := ⟨[0], [], rfl⟩

/-- A one-measurement array (`numpy.array([5.0])`). -/
def exA1 : NpArray := ⟨[1], [5], rfl⟩

/-- A two-measurement array (`numpy.array([1.0, 3.0])`). -/
def exA2 : NpArray := ⟨[2], [1, 3], rfl⟩

/-- A 2×2 array (`numpy.array([[1.0, 2.0], [3.0, 4.0]])`). -/
def exB : NpArray := ⟨[2, 2], [1, 2, 3, 4], rfl⟩

/-! Helper lemmas about the `Except` plumbing and the evaluator. -/

theorem ebind_ok (v : α) (k : α → Except PyError β) : (Except.ok v >>= k) = k v := rfl

theorem ebind_error (e : PyError) (k : α → Except PyError β) :
    ((Except.error e : Except PyError α) >>= k) = Except.error e := rfl

theorem emap_ok (v : α) (f : α → β) : (Except.ok v : Except PyError α).map f = .ok (f v) := rfl

theorem emap_error (e : PyError) (f : α → β) :
    (Except.error e : Except PyError α).map f = .error e := rfl

theorem except_ok_or_error (v : Except PyError α) :
    (∃ y, v = .ok y) ∨ (∃ e, v = .error e) := by
  cases v with
  | ok y => exact Or.inl ⟨y, rfl⟩
  | error e => exact Or.inr ⟨e, rfl⟩

theorem exceptMap_eq_map (f : α → Except PyError β) (g : α → β) :
    ∀ l : List α, (∀ x ∈ l, f x = .ok (g x)) → exceptMap f l = .ok (l.map g) := by
  intro l
  induction l with
  | nil => intro _; rfl
  | cons x xs ih =>
    intro h
    have hx : f x = .ok (g x) := h x (List.mem_cons_self x xs)
    have hxs := ih (fun y hy => h y (List.mem_cons_of_mem x hy))
    simp only [exceptMap, hx, hxs, ebind_ok]
    rfl

theorem exceptMap_ok_of_forall (f : α → Except PyError β) :
    ∀ l : List α, (∀ x ∈ l, ∃ y, f x = .ok y) → ∃ ys, exceptMap f l = .ok ys := by
  intro l
  induction l with
  | nil => intro _; exact ⟨[], rfl⟩
  | cons x xs ih =>
    intro h
    obtain ⟨y, hy⟩ := h x (List.mem_cons_self x xs)
    obtain ⟨ys, hys⟩ := ih (fun z hz => h z (List.mem_cons_of_mem x hz))
    exact ⟨y :: ys, by simp only [exceptMap, hy, hys, ebind_ok]; rfl⟩

theorem exceptMap_ok_forall (f : α → Except PyError β) :
    ∀ (l : List α) (ys : List β), exceptMap f l = .ok ys → ∀ x ∈ l, ∃ y, f x = .ok y := by
  intro l
  induction l with
  | nil => intro ys _ x hx; cases hx
  | cons z zs ih =>
    intro ys h x hx
    cases hz : f z with
    | error e => rw [exceptMap, hz, ebind_error] at h; cases h
    | ok y =>
      rw [exceptMap, hz, ebind_ok] at h
      cases hzs : exceptMap f zs with
      | error e => rw [hzs, ebind_error] at h; cases h
      | ok ys' =>
        rcases List.mem_cons.mp hx with hxz | hxs
        · exact ⟨y, hxz ▸ hz⟩
        · exact ih ys' hzs x hxs

theorem exceptMap_error_mem (f : α → Except PyError β) :
    ∀ (l : List α) (e : PyError), exceptMap f l = .error e → ∃ x ∈ l, f x = .error e := by
  intro l
  induction l with
  | nil => intro e h; cases h
  | cons z zs ih =>
    intro e h
    cases hz : f z with
    | error e' =>
      rw [exceptMap, hz, ebind_error] at h
      cases h
      exact ⟨z, List.mem_cons_self z zs, hz⟩
    | ok y =>
      rw [exceptMap, hz, ebind_ok] at h
      cases hzs : exceptMap f zs with
      | error e' =>
        rw [hzs, ebind_error] at h
        cases h
        obtain ⟨x, hx, hfx⟩ := ih e hzs
        exact ⟨x, List.mem_cons_of_mem z hx, hfx⟩
      | ok ys' => rw [hzs, ebind_ok] at h; cases h

theorem npGetFlat_ok (xs : List ℚ) (i : ℤ) (h0 : 0 ≤ i) (h1 : i < (xs.length : ℤ)) :
    npGetFlat xs i = .ok (xs.getD i.toNat 0) := by
  unfold npGetFlat
  rw [if_pos ⟨h0, h1⟩]

theorem npGetFlat_error_eq (xs : List ℚ) (i : ℤ) (e : PyError)
    (h : npGetFlat xs i = .error e) : e = .indexError := by
  unfold npGetFlat at h
  split_ifs at h
  cases h
  rfl

theorem npGetFlat_error_iff (xs : List ℚ) (i : ℤ) :
    npGetFlat xs i = .error .indexError ↔ (i < -(xs.length : ℤ) ∨ (xs.length : ℤ) ≤ i) := by
  unfold npGetFlat
  split_ifs with h1 h2
  · constructor
    · intro h; cases h
    · intro h; exfalso; omega
  · constructor
    · intro h; cases h
    · intro h; exfalso; omega
  · constructor
    · intro _; omega
    · intro _; rfl

theorem npSelect_eq (xs : List ℚ) (indices : List ℤ)
    (h : ∀ i ∈ indices, 0 ≤ i ∧ i < (xs.length : ℤ)) :
    npSelect xs indices = .ok (indices.map (fun i => xs.getD i.toNat 0)) :=
  exceptMap_eq_map _ _ indices (fun i hi => npGetFlat_ok xs i (h i hi).1 (h i hi).2)

theorem npSelect_error_eq (xs : List ℚ) (indices : List ℤ) (e : PyError)
    (h : npSelect xs indices = .error e) : e = .indexError := by
  obtain ⟨i, _, hi⟩ := exceptMap_error_mem _ indices e h
  exact npGetFlat_error_eq xs i e hi

theorem npSelect_error_iff (xs : List ℚ) (indices : List ℤ) :
    npSelect xs indices = .error .indexError ↔
      ∃ i ∈ indices, i < -(xs.length : ℤ) ∨ (xs.length : ℤ) ≤ i := by
  constructor
  · intro h
    obtain ⟨i, hmem, hi⟩ := exceptMap_error_mem _ indices _ h
    exact ⟨i, hmem, (npGetFlat_error_iff xs i).mp hi⟩
  · intro ⟨i, hmem, hi⟩
    rcases except_ok_or_error (npSelect xs indices) with ⟨ys, hys⟩ | ⟨e, he⟩
    · obtain ⟨y, hy⟩ := exceptMap_ok_forall _ indices ys hys i hmem
      rw [(npGetFlat_error_iff xs i).mpr hi] at hy
      cases hy
    · rw [he, npSelect_error_eq xs indices e he]

theorem ami_none_eq (a : NpArray) (indices : List ℤ) (dtype : Option DType)
    (h : ∀ i ∈ indices, 0 ≤ i ∧ i < (a.size : ℤ)) :
    array_mean_indices a indices none dtype =
      .ok [npMean dtype (indices.map (fun i => a.data.getD i.toNat 0))] := by
  simp only [array_mean_indices]
  rw [npSelect_eq a.data indices h, emap_ok]

theorem prod_set_one :
    ∀ (l : List ℕ) (k : ℕ), k < l.length → (l.set k 1).prod * l.getD k 0 = l.prod := by
  intro l
  induction l with
  | nil => intro k hk; cases hk
  | cons x xs ih =>
    intro k hk
    cases k with
    | zero => simp [List.set, Nat.mul_comm]
    | succ k =>
      have hk' : k < xs.length := by simpa using hk
      simp only [List.set, List.prod_cons, List.getD_cons_succ]
      rw [Nat.mul_assoc, ih k hk']

theorem npTakeFlat_length (a : NpArray) (k j : ℕ) :
    (npTakeFlat a k j).length = (a.shape.set k 1).prod := by
  simp [npTakeFlat]

theorem npTakeFlat_length_div (a : NpArray) (k j : ℕ) (hk : k < a.shape.length)
    (hK : a.shape.getD k 0 ≠ 0) :
    (npTakeFlat a k j).length = a.size / a.shape.getD k 0 := by
  rw [npTakeFlat_length]
  have h1 := prod_set_one a.shape k hk
  have h2 : a.size = a.shape.prod := a.sizeEq
  rw [h2, ← h1, Nat.mul_div_cancel _ (Nat.pos_of_ne_zero hK)]

theorem ami_some_eq (a : NpArray) (k : ℕ) (indices : List ℤ) (dtype : Option DType)
    (hk : k < a.shape.length) (hK : a.shape.getD k 0 ≠ 0)
    (h : ∀ i ∈ indices, 0 ≤ i ∧ i < ((a.size / a.shape.getD k 0 : ℕ) : ℤ)) :
    array_mean_indices a indices (some k) dtype =
      .ok ((List.range (a.shape.getD k 0)).map (fun j =>
        npMean none (indices.map (fun i => (npTakeFlat a k j).getD i.toNat 0)))) := by
  simp only [array_mean_indices]
  rw [if_pos hk]
  apply exceptMap_eq_map
  intro j _
  rw [npSelect_eq (npTakeFlat a k j) indices
    (by rw [npTakeFlat_length_div a k j hk hK]; exact h), emap_ok]

theorem number_measurements_some_ok (a : NpArray) (k : ℕ) (n : ℕ) :
    number_measurements a (some k) = .ok n ↔
      k < a.shape.length ∧ a.shape.getD k 0 ≠ 0 ∧ n = a.size / a.shape.getD k 0 := by
  simp only [number_measurements]
  split_ifs with h1 h2
  · constructor
    · intro h; cases h
    · intro ⟨_, h, _⟩; exact absurd h2 h
  · constructor
    · intro h
      cases h
      exact ⟨h1, h2, rfl⟩
    · intro ⟨_, _, h⟩; rw [h]
  · constructor
    · intro h; cases h
    · intro ⟨h, _, _⟩; exact absurd h h1

theorem jkIndices_bounds (i n : ℕ) (hi : i < n) :
    ∀ x ∈ jkIndices i n, 0 ≤ x ∧ x < (n : ℤ) := by
  intro x hx
  simp only [jkIndices, List.mem_map, List.mem_append, List.mem_range'_1,
    Int.ofNat_eq_coe] at hx
  obtain ⟨j, hj, rfl⟩ := hx
  omega

theorem array_mean_indices_ok (a : NpArray) (indices : List ℤ) (func_axis : Option ℕ)
    (dtype : Option DType) (n : ℕ) (hn : number_measurements a func_axis = .ok n)
    (h : ∀ i ∈ indices, 0 ≤ i ∧ i < (n : ℤ)) :
    ∃ ms, array_mean_indices a indices func_axis dtype = .ok ms := by
  cases func_axis with
  | none =>
    have hn' : n = a.size := by
      unfold number_measurements at hn
      cases hn
      rfl
    exact ⟨_, ami_none_eq a indices dtype (hn' ▸ h)⟩
  | some k =>
    obtain ⟨hk, hK, hnv⟩ := (number_measurements_some_ok a k n).mp hn
    exact ⟨_, ami_some_eq a k indices dtype hk hK (hnv ▸ h)⟩

theorem jackknife_values_ok_none (a : NpArray) (func : List NpFloat → NpFloat)
    (dtype : Option DType) :
    exceptMap (fun i => (array_mean_indices a (jkIndices i a.size) none dtype).map func)
      (List.range a.size) =
    .ok ((List.range a.size).map
      (fun i => func [npMean dtype ((jkIndices i a.size).map (fun x => a.data.getD x.toNat 0))])) := by
  apply exceptMap_eq_map
  intro i hi
  rw [ami_none_eq a _ dtype (jkIndices_bounds i a.size (List.mem_range.mp hi)), emap_ok]

/-- C2 (amended): without a function axis, `jackknife` raises if and only if
the measurement count is zero (the `ValueError` of `math.sqrt(0 - 1)`); for
`N = 1` it returns normally — the single leave-one-out subset is empty, so
the result is NaN rather than an `InsufficientData` failure — and for
`N = 2` it returns normally as the original claim states. -/
theorem jackknife_error_iff (a : NpArray) (func : List NpFloat → NpFloat)
    (dtype : Option DType) :
    ((∃ e, jackknife a func none dtype = .error e) ↔ a.size = 0)
    ∧ (a.size = 0 → jackknife a func none dtype = .error .valueError) := by
  set vlist := (List.range a.size).map
    (fun i => func [npMean dtype ((jkIndices i a.size).map (fun x => a.data.getD x.toNat 0))])
    with hv
  have hred : jackknife a func none dtype =
      pySqrtSq ((a.size : ℚ) - 1) >>= fun c => pure (npMeanF vlist, npScale c (npStdSq vlist)) := by
    unfold jackknife
    rw [show number_measurements a none = .ok a.size from rfl, ebind_ok,
      jackknife_values_ok_none a func dtype, ebind_ok]
  have herr0 : pySqrtSq (((0 : ℕ) : ℚ) - 1) = .error .valueError := by
    unfold pySqrtSq
    rw [if_pos (by norm_num)]
  constructor
  · constructor
    · intro ⟨e, he⟩
      by_contra hsz
      have hpos : 1 ≤ a.size := Nat.one_le_iff_ne_zero.mpr hsz
      have hc : (1 : ℚ) ≤ (a.size : ℚ) := by exact_mod_cast hpos
      have hok : pySqrtSq ((a.size : ℚ) - 1) = .ok ((a.size : ℚ) - 1) := by
        unfold pySqrtSq
        rw [if_neg (by linarith)]
      rw [hred, hok, ebind_ok] at he
      cases he
    · intro h0
      rw [hred, h0]
      exact ⟨.valueError, by rw [herr0, ebind_error]⟩
  · intro h0
    rw [hred, h0, herr0, ebind_error]

/-- C2 counterexample: a one-measurement array.  The original claim says a
call with `N = 1 < 2` must fail with `InsufficientData`; the code instead
returns normally, with NaN mean and error (the mean over the empty
leave-one-out index subset is numpy's NaN, not an exception). -/
theorem jackknife_n1_returns_nan :
    jackknife exA1 identity none none = .ok (.nan, .nan) ∧ exA1.size = 1 := by
  refine ⟨?_, rfl⟩
  norm_num [jackknife, number_measurements, NpArray.size, exA1, jkIndices, exceptMap,
    array_mean_indices, npSelect, npGetFlat, npMean, identity, pySqrtSq, npMeanF, floatVals,
    npStdSq, npScale, List.range_succ, ebind_ok, ebind_error, emap_ok]

/-- C2 witness: on the empty array the jackknife does raise (`math.sqrt(-1)`,
a `ValueError`). -/
theorem jackknife_error_iff_witness :
    jackknife exA0 identity none none = .error .valueError :=
  (jackknife_error_iff exA0 identity none).2 rfl

theorem exceptMap_congr (f g : α → Except PyError β) :
    ∀ l : List α, (∀ x ∈ l, f x = g x) → exceptMap f l = exceptMap g l := by
  intro l
  induction l with
  | nil => intro _; rfl
  | cons x xs ih =>
    intro h
    simp only [exceptMap]
    rw [h x (List.mem_cons_self x xs), ih (fun y hy => h y (List.mem_cons_of_mem x hy))]

theorem bootstrap_unfold (a : NpArray) (iterations : ℤ) (func : List NpFloat → NpFloat)
    (func_axis : Option ℕ) (dtype : Option DType) (rand : ℕ → List ℤ) (n : ℕ)
    (hn : number_measurements a func_axis = .ok n) :
    bootstrap a iterations func func_axis dtype rand =
      (exceptMap (fun i => np_randint 0 (n : ℤ) (rand i) >>= fun idx =>
          (array_mean_indices a idx func_axis dtype).map func) (List.range iterations.toNat)) >>=
        fun vs => pyDiv (iterations : ℚ) ((iterations : ℚ) - 1) >>= fun q => pySqrtSq q >>=
          fun c => pure (npMeanF vs, npScale c (npStdSq vs)) := by
  unfold bootstrap
  rw [hn, ebind_ok]

theorem ratio_tail_ok (it : ℤ) (hit : it ≠ 1) :
    pyDiv (it : ℚ) ((it : ℚ) - 1) = .ok ((it : ℚ) / ((it : ℚ) - 1))
    ∧ pySqrtSq ((it : ℚ) / ((it : ℚ) - 1)) = .ok ((it : ℚ) / ((it : ℚ) - 1)) := by
  have hden : ((it : ℚ) - 1) ≠ 0 := by
    intro h
    apply hit
    have h1 : (it : ℚ) = 1 := by linarith
    exact_mod_cast h1
  refine ⟨by unfold pyDiv; rw [if_neg hden], ?_⟩
  unfold pySqrtSq
  rw [if_neg (not_lt.mpr ?_)]
  have hcase : it ≤ 0 ∨ 2 ≤ it := by omega
  rcases hcase with h | h
  · have h1 : (it : ℚ) ≤ 0 := by exact_mod_cast h
    exact div_nonneg_iff.mpr (Or.inr ⟨h1, by linarith⟩)
  · have h1 : (2 : ℚ) ≤ (it : ℚ) := by exact_mod_cast h
    exact div_nonneg_iff.mpr (Or.inl ⟨by linarith, by linarith⟩)

/-- C4 (amended): without a function axis, `bootstrap` raises if and only if
`iterations = 1` (the `ZeroDivisionError` of `iterations/(iterations - 1)`)
or the array is empty with at least one iteration (the `ValueError` of
`numpy.random.randint(0, 0)`); in particular a call with `iterations <= 0`
on a non-empty array returns (NaN, NaN) normally instead of failing with
`InsufficientIterations`, while `iterations >= 2` on a non-empty array never
raises, as the original claim states. -/
theorem bootstrap_error_iff (a : NpArray) (iterations : ℤ) (func : List NpFloat → NpFloat)
    (dtype : Option DType) (rand : ℕ → List ℤ)
    (hrand : ∀ i, i < iterations.toNat → ∀ x ∈ rand i, 0 ≤ x ∧ x < (a.size : ℤ)) :
    (∃ e, bootstrap a iterations func none dtype rand = .error e) ↔
      (iterations = 1 ∨ (1 ≤ iterations ∧ a.size = 0)) := by
  have hred := bootstrap_unfold a iterations func none dtype rand a.size rfl
  rcases Nat.eq_zero_or_pos a.size with hsz | hsz
  · rcases le_or_lt iterations 0 with hit | hit
    · have ht : iterations.toNat = 0 := by omega
      have hit1 : iterations ≠ 1 := by omega
      obtain ⟨hq, hc⟩ := ratio_tail_ok iterations hit1
      rw [ht] at hred
      rw [show List.range 0 = [] from rfl] at hred
      rw [show exceptMap (fun i => np_randint 0 ((a.size : ℕ) : ℤ) (rand i) >>= fun idx =>
          (array_mean_indices a idx none dtype).map func) ([] : List ℕ) = .ok [] from rfl,
        ebind_ok, hq, ebind_ok, hc, ebind_ok] at hred
      constructor
      · intro ⟨e, he⟩
        rw [hred] at he
        cases he
      · intro h
        exfalso
        rcases h with h | ⟨h, _⟩ <;> omega
    · have ht : ∃ m, iterations.toNat = m + 1 := ⟨iterations.toNat - 1, by omega⟩
      obtain ⟨m, hm⟩ := ht
      have hri : np_randint 0 ((a.size : ℕ) : ℤ) (rand 0) = .error .valueError := by
        unfold np_randint
        rw [if_neg (by omega)]
      have hfail : bootstrap a iterations func none dtype rand = .error .valueError := by
        rw [hred, hm, List.range_succ_eq_map, exceptMap]
        simp only [hri, ebind_error]
      constructor
      · intro _
        exact Or.inr ⟨by omega, hsz⟩
      · intro _
        exact ⟨.valueError, hfail⟩
  · have hfn : ∀ i ∈ List.range iterations.toNat,
        (np_randint 0 ((a.size : ℕ) : ℤ) (rand i) >>= fun idx =>
          (array_mean_indices a idx none dtype).map func)
          = (array_mean_indices a (rand i) none dtype).map func := by
      intro i _
      have hok : np_randint 0 ((a.size : ℕ) : ℤ) (rand i) = .ok (rand i) := by
        unfold np_randint
        rw [if_pos (by omega)]
      rw [hok, ebind_ok]
    have hvals : ∃ vs, exceptMap (fun i => np_randint 0 ((a.size : ℕ) : ℤ) (rand i) >>=
        fun idx => (array_mean_indices a idx none dtype).map func)
        (List.range iterations.toNat) = .ok vs := by
      apply exceptMap_ok_of_forall
      intro i hi
      rw [hfn i hi]
      obtain ⟨ms, hms⟩ := array_mean_indices_ok a (rand i) none dtype a.size rfl
        (hrand i (List.mem_range.mp hi))
      exact ⟨func ms, by rw [hms, emap_ok]⟩
    obtain ⟨vs, hvs⟩ := hvals
    rw [hvs, ebind_ok] at hred
    rcases eq_or_ne iterations 1 with hit1 | hit1
    · subst hit1
      have hdz : pyDiv ((1 : ℤ) : ℚ) (((1 : ℤ) : ℚ) - 1) = .error .zeroDivisionError := by
        unfold pyDiv
        rw [if_pos (by norm_num)]
      rw [hdz, ebind_error] at hred
      constructor
      · intro _
        exact Or.inl rfl
      · intro _
        exact ⟨.zeroDivisionError, hred⟩
    · obtain ⟨hq, hc⟩ := ratio_tail_ok iterations hit1
      rw [hq, ebind_ok, hc, ebind_ok] at hred
      constructor
      · intro ⟨e, he⟩
        rw [hred] at he
        cases he
      · intro h
        exfalso
        rcases h with h | ⟨_, h⟩
        · exact hit1 h
        · omega
      
/-- C4 counterexample: with `iterations = 0 < 2` the original claim requires
an `InsufficientIterations` failure, but the code returns normally: zero
resample values are built, `0/(0 - 1)` is a legal float division, and
`numpy.mean`/`numpy.std` of the empty value list give NaN. -/
theorem bootstrap_it0_returns_nan :
    bootstrap exA1 0 identity none none (fun _ => []) = .ok (.nan, .nan) := by
  norm_num [bootstrap, number_measurements, NpArray.size, exA1, exceptMap, pyDiv, pySqrtSq,
    npMeanF, floatVals, npStdSq, npScale, ebind_ok, ebind_error, emap_ok]

/-- C4 witness: with `iterations = 1` on a one-measurement array the
bootstrap does raise (the division `1/(1 - 1)`, a `ZeroDivisionError`). -/
theorem bootstrap_error_iff_witness :
    (∃ e, bootstrap exA1 1 identity none none (fun _ => [0]) = .error e) ↔
      ((1 : ℤ) = 1 ∨ (1 ≤ (1 : ℤ) ∧ exA1.size = 0)) := by
  apply bootstrap_error_iff
  intro i _ x hx
  rw [List.mem_singleton] at hx
  subst hx
  exact ⟨le_refl 0, by norm_num [NpArray.size, exA1]⟩

theorem subsampling_unfold (a : NpArray) (samples iterations : ℤ)
    (func : List NpFloat → NpFloat) (func_axis : Option ℕ) (dtype : Option DType)
    (perm : ℕ → List ℕ) (n : ℕ) (hn : number_measurements a func_axis = .ok n) :
    subsampling a samples iterations func func_axis dtype perm =
      (exceptMap (fun i => (array_mean_indices a
          ((pySlice0 (perm i) samples).map (fun j => Int.ofNat j)) func_axis dtype).map func)
        (List.range iterations.toNat)) >>=
      fun vs => pyDiv (samples : ℚ) (((iterations * (iterations - 1) : ℤ)) : ℚ) >>=
        fun q => pySqrtSq q >>= fun c => pure (npMeanF vs, npScale c (npStdSq vs)) := by
  unfold subsampling
  rw [hn, ebind_ok]

theorem pySlice0_subset (xs : List α) (s : ℤ) : pySlice0 xs s ⊆ xs := by
  unfold pySlice0
  split_ifs <;> exact List.take_subset _ _

theorem subsampling_values_ok (a : NpArray) (samples : ℤ) (func : List NpFloat → NpFloat)
    (dtype : Option DType) (perm : ℕ → List ℕ) (iters : ℕ)
    (hperm : ∀ i, i < iters → ∀ x ∈ perm i, x < a.size) :
    ∃ vs, exceptMap (fun i => (array_mean_indices a
        ((pySlice0 (perm i) samples).map (fun j => Int.ofNat j)) none dtype).map func)
      (List.range iters) = .ok vs := by
  apply exceptMap_ok_of_forall
  intro i hi
  have hidx : ∀ x ∈ (pySlice0 (perm i) samples).map (fun j => Int.ofNat j),
      0 ≤ x ∧ x < (a.size : ℤ) := by
    intro x hx
    obtain ⟨j, hj, rfl⟩ := List.mem_map.mp hx
    have hj' : j < a.size := hperm i (List.mem_range.mp hi) j (pySlice0_subset _ _ hj)
    simp only [Int.ofNat_eq_coe]
    omega
  obtain ⟨ms, hms⟩ := array_mean_indices_ok a _ none dtype a.size rfl hidx
  exact ⟨func ms, by rw [hms, emap_ok]⟩

/-- C6 (amended): without a function axis, `subsampling` raises if and only
if `iterations` is `0` or `1` (the `ZeroDivisionError` of
`samples/(iterations*(iterations - 1))`) or `samples < 0` (the `ValueError`
of `math.sqrt` of a negative); the code performs no validation, so
`samples = 0` and `samples > N` return normally (the Python slice of the
permutation is simply empty or clipped to the whole permutation) instead of
failing with `InvalidParameters`, and the boundary call `samples = N`
returns normally as the original claim states. -/
theorem subsampling_error_iff (a : NpArray) (samples iterations : ℤ)
    (func : List NpFloat → NpFloat) (dtype : Option DType) (perm : ℕ → List ℕ)
    (hperm : ∀ i, i < iterations.toNat → ∀ x ∈ perm i, x < a.size) :
    (∃ e, subsampling a samples iterations func none dtype perm = .error e) ↔
      (iterations = 0 ∨ iterations = 1 ∨ samples < 0) := by
  have hred := subsampling_unfold a samples iterations func none dtype perm a.size rfl
  obtain ⟨vs, hvs⟩ := subsampling_values_ok a samples func dtype perm iterations.toNat hperm
  rw [hvs, ebind_ok] at hred
  by_cases h01 : iterations = 0 ∨ iterations = 1
  · have hd0 : iterations * (iterations - 1) = 0 := by
      rcases h01 with h | h <;> subst h <;> norm_num
    have hdz : pyDiv (samples : ℚ) (((iterations * (iterations - 1) : ℤ)) : ℚ) =
        .error .zeroDivisionError := by
      unfold pyDiv
      rw [if_pos (by rw [hd0]; norm_num)]
    rw [hdz, ebind_error] at hred
    constructor
    · intro _
      rcases h01 with h | h
      · exact Or.inl h
      · exact Or.inr (Or.inl h)
    · intro _
      exact ⟨.zeroDivisionError, hred⟩
  · push_neg at h01
    obtain ⟨h0, h1⟩ := h01
    have hd : (0 : ℤ) < iterations * (iterations - 1) := by
      have hcase : 2 ≤ iterations ∨ iterations ≤ -1 := by omega
      rcases hcase with h | h
      · exact mul_pos (by omega) (by omega)
      · exact mul_pos_of_neg_of_neg (by omega) (by omega)
    have hdQ : (0 : ℚ) < (((iterations * (iterations - 1) : ℤ)) : ℚ) := by exact_mod_cast hd
    have hq : pyDiv (samples : ℚ) (((iterations * (iterations - 1) : ℤ)) : ℚ) =
        .ok ((samples : ℚ) / (((iterations * (iterations - 1) : ℤ)) : ℚ)) := by
      unfold pyDiv
      rw [if_neg (ne_of_gt hdQ)]
    rw [hq, ebind_ok] at hred
    by_cases hs : samples < 0
    · have hneg : ((samples : ℚ) / (((iterations * (iterations - 1) : ℤ)) : ℚ)) < 0 :=
        div_neg_of_neg_of_pos (by exact_mod_cast hs) hdQ
      have hsq : pySqrtSq ((samples : ℚ) / (((iterations * (iterations - 1) : ℤ)) : ℚ)) =
          .error .valueError := by
        unfold pySqrtSq
        rw [if_pos hneg]
      rw [hsq, ebind_error] at hred
      constructor
      · intro _
        exact Or.inr (Or.inr hs)
      · intro _
        exact ⟨.valueError, hred⟩
    · have hnn : ¬ ((samples : ℚ) / (((iterations * (iterations - 1) : ℤ)) : ℚ)) < 0 :=
        not_lt.mpr (div_nonneg (by exact_mod_cast not_lt.mp hs) (le_of_lt hdQ))
      have hsq : pySqrtSq ((samples : ℚ) / (((iterations * (iterations - 1) : ℤ)) : ℚ)) =
          .ok ((samples : ℚ) / (((iterations * (iterations - 1) : ℤ)) : ℚ)) := by
        unfold pySqrtSq
        rw [if_neg hnn]
      rw [hsq, ebind_ok] at hred
      constructor
      · intro ⟨e, he⟩
        rw [hred] at he
        cases he
      · intro h
        exfalso
        rcases h with h | h | h
        · exact h0 h
        · exact h1 h
        · exact hs h

/-- C6 counterexample: `samples = 2` exceeds the measurement count `N = 1`,
so the original claim requires an `InvalidParameters` failure; the code
instead clips the slice of the permutation to the single available index and
returns a normal result. -/
theorem subsampling_samples_gt_N_ok :
    subsampling exA1 2 2 identity none none (fun _ => [0]) = .ok (.val 5, .val 0)
    ∧ exA1.size = 1 := by
  refine ⟨?_, rfl⟩
  norm_num [subsampling, number_measurements, NpArray.size, exA1, exceptMap,
    array_mean_indices, npSelect, npGetFlat, npMean, identity, pySlice0, pyDiv, pySqrtSq,
    npMeanF, floatVals, npStdSq, npScale, List.range_succ, ebind_ok, emap_ok]
  constructor
  · intro h
    exact (List.cons_ne_nil _ _ h).elim
  · rw [if_neg (List.cons_ne_nil _ _)]

/-- C6 witness: the boundary call `samples = N = 2` with two iterations
raises nothing — both sides of the amended equivalence are false. -/
theorem subsampling_error_iff_witness :
    (∃ e, subsampling exA2 2 2 identity none none (fun _ => [0, 1]) = .error e) ↔
      ((2 : ℤ) = 0 ∨ (2 : ℤ) = 1 ∨ (2 : ℤ) < 0) := by
  apply subsampling_error_iff
  intro i _ x hx
  simp only [List.mem_cons, List.mem_singleton] at hx
  rcases hx with rfl | rfl | h
  · show 0 < 2
    norm_num
  · show 1 < 2
    norm_num
  · cases h

theorem emap_error_iff (v : Except PyError α) (f : α → β) (e : PyError) :
    v.map f = .error e ↔ v = .error e := by
  cases v with
  | ok a =>
    rw [emap_ok]
    constructor <;> (intro h; cases h)
  | error e' =>
    rw [emap_error]
    constructor <;> (intro h; cases h; rfl)

/-- C9 (amended): the Subset-Mean Evaluator fails — always with the
`IndexError` that the spec calls InvalidIndex, and with no other error —
if and only if some index lies outside `[-m, m)`, where `m` is the length of
the flattened array (no function axis) or of the per-entry slice (function
axis present, with an existing axis of non-zero size; an axis outside the
shape is itself an `IndexError`, and an axis of size zero returns the empty
tuple without ever touching the indices).  Negative indices in `[-m, 0)` are
accepted and wrap around, so the original bound `[0, m)` is wrong. -/
theorem array_mean_indices_error_characterization (a : NpArray) (indices : List ℤ)
    (dtype : Option DType) :
    (array_mean_indices a indices none dtype = .error .indexError ↔
      ∃ i ∈ indices, i < -(a.size : ℤ) ∨ (a.size : ℤ) ≤ i)
    ∧ (∀ k : ℕ, array_mean_indices a indices (some k) dtype = .error .indexError ↔
        (a.shape.length ≤ k ∨ (0 < a.shape.getD k 0 ∧
          ∃ i ∈ indices, i < -(((a.size / a.shape.getD k 0 : ℕ)) : ℤ)
            ∨ (((a.size / a.shape.getD k 0 : ℕ)) : ℤ) ≤ i)))
    ∧ (∀ fa : Option ℕ, (∃ ms, array_mean_indices a indices fa dtype = .ok ms)
        ∨ array_mean_indices a indices fa dtype = .error .indexError) := by
  refine ⟨?_, ?_, ?_⟩
  · simp only [array_mean_indices]
    rw [emap_error_iff]
    exact npSelect_error_iff a.data indices
  · intro k
    simp only [array_mean_indices]
    by_cases hk : k < a.shape.length
    · rw [if_pos hk]
      by_cases hK : a.shape.getD k 0 = 0
      · rw [hK]
        simp only [List.range_zero]
        rw [exceptMap]
        constructor
        · intro h
          cases h
        · intro h
          exfalso
          rcases h with h | ⟨h0, _⟩
          · omega
          · omega
      · have hKpos : 0 < a.shape.getD k 0 := Nat.pos_of_ne_zero hK
        have hlen : ∀ j, (npTakeFlat a k j).length = a.size / a.shape.getD k 0 :=
          fun j => npTakeFlat_length_div a k j hk hK
        constructor
        · intro h
          obtain ⟨j, _, hfj⟩ := exceptMap_error_mem _ _ _ h
          rw [emap_error_iff] at hfj
          have hbad := (npSelect_error_iff _ indices).mp hfj
          rw [hlen j] at hbad
          exact Or.inr ⟨hKpos, hbad⟩
        · intro h
          rcases h with h | ⟨_, hbad⟩
          · exfalso
            omega
          · obtain ⟨m', hm'⟩ : ∃ m', a.shape.getD k 0 = m' + 1 := ⟨a.shape.getD k 0 - 1, by omega⟩
            rw [hm', List.range_succ_eq_map, exceptMap]
            have h0 : npSelect (npTakeFlat a k 0) indices = .error .indexError := by
              rw [npSelect_error_iff, hlen 0]
              exact hbad
            simp only [h0, emap_error, ebind_error]
    · rw [if_neg hk]
      constructor
      · intro _
        exact Or.inl (le_of_not_lt hk)
      · intro _
        rfl
  · intro fa
    cases fa with
    | none =>
      simp only [array_mean_indices]
      rcases except_ok_or_error (npSelect a.data indices) with ⟨ys, hys⟩ | ⟨e, he⟩
      · exact Or.inl ⟨_, by rw [hys, emap_ok]⟩
      · right
        rw [he, emap_error, npSelect_error_eq _ _ _ he]
    | some k =>
      simp only [array_mean_indices]
      by_cases hk : k < a.shape.length
      · rw [if_pos hk]
        rcases except_ok_or_error (exceptMap
            (fun j => (npSelect (npTakeFlat a k j) indices).map (fun sel => npMean none sel))
            (List.range (a.shape.getD k 0))) with ⟨ys, hys⟩ | ⟨e, he⟩
        · exact Or.inl ⟨ys, hys⟩
        · obtain ⟨j, _, hfj⟩ := exceptMap_error_mem _ _ _ he
          rw [emap_error_iff] at hfj
          right
          rw [he, npSelect_error_eq _ _ _ hfj]
      · rw [if_neg hk]
        exact Or.inr rfl

/-- C9 counterexample: the index `-1` of a two-element flat array lies
outside `[0, size)`, so the original claim requires an InvalidIndex failure;
numpy fancy indexing instead wraps the negative index around and the
evaluator returns the mean of the last element. -/
theorem array_mean_indices_negative_index_ok :
    array_mean_indices exA2 [-1] none none = .ok [.val 3] := by
  norm_num [array_mean_indices, npSelect, npGetFlat, exceptMap, npMean, exA2,
    emap_ok, ebind_ok]

/-- C8: the function-axis branch of `__array_mean_indices` drops the dtype
override.  On the flat branch the recorded dtype of the single `numpy.mean`
call is the supplied `float32`; on the axis branch both per-entry
`numpy.mean` calls receive no dtype at all (source line 43), contradicting
the documented contract that `dtype` is the type used for the mean
computation. -/
theorem array_mean_indices_dtype_dropped :
    array_mean_indices_dtypes exB none (some DType.float32) = [some DType.float32]
    ∧ array_mean_indices_dtypes exB (some 0) (some DType.float32) = [none, none] :=
  ⟨rfl, rfl⟩

theorem filter_range_div_eq (s : ℕ) (hs : 0 < s) :
    ∀ K j : ℕ, j < K → (List.range (K * s)).filter (fun u => u / s = j) =
      (List.range s).map (fun r => j * s + r) := by
  intro K
  induction K with
  | zero =>
    intro j hj
    cases hj
  | succ K ih =>
    intro j hj
    rw [Nat.succ_mul, List.range_add, List.filter_append, List.filter_map]
    have hshift : ∀ r ∈ List.range s,
        (decide ((K * s + r) / s = j) : Bool) = decide (K = j) := by
      intro r hr
      rw [List.mem_range] at hr
      rw [decide_eq_decide, Nat.mul_comm K s, Nat.mul_add_div hs,
        Nat.div_eq_of_lt hr, Nat.add_zero]
    rcases Nat.lt_succ_iff_lt_or_eq.mp hj with hj' | rfl
    · rw [ih j hj']
      have hnil : List.filter ((fun u => decide (u / s = j)) ∘ (fun x => K * s + x))
          (List.range s) = [] := by
        rw [List.filter_eq_nil_iff]
        intro r hr
        rw [Function.comp_apply, hshift r hr]
        simp only [decide_eq_true_eq]
        omega
      rw [hnil]
      simp only [List.map_nil, List.append_nil]
    · have hhead : (List.range (j * s)).filter (fun u => u / s = j) = [] := by
        rw [List.filter_eq_nil_iff]
        intro u hu
        rw [List.mem_range] at hu
        have hdiv : u / s < j := (Nat.div_lt_iff_lt_mul hs).mpr hu
        simp only [decide_eq_true_eq]
        omega
      have hall : List.filter ((fun u => decide (u / s = j)) ∘ (fun x => j * s + x))
          (List.range s) = List.range s := by
        rw [List.filter_eq_self]
        intro r hr
        rw [Function.comp_apply, hshift r hr]
        simp only [decide_eq_true_eq]
      rw [hhead, hall, List.nil_append]

theorem filter_range_block (K s j : ℕ) (hs : 0 < s) (hj : j < K) :
    (List.range (K * s)).filter (fun u => u / s % K = j) =
      (List.range s).map (fun r => j * s + r) := by
  have hcongr : (List.range (K * s)).filter (fun u => u / s % K = j) =
      (List.range (K * s)).filter (fun u => u / s = j) := by
    apply List.filter_congr
    intro u hu
    rw [List.mem_range] at hu
    have hlt : u / s < K := (Nat.div_lt_iff_lt_mul hs).mpr hu
    rw [decide_eq_decide, Nat.mod_eq_of_lt hlt]
  rw [hcongr]
  exact filter_range_div_eq s hs K j hj

theorem mapIdx_eq_filter_range (P K s j : ℕ) (hj : j < K) :
    (List.range (P * s)).map (fun f => f / s * (K * s) + j * s + f % s) =
      (List.range (P * (K * s))).filter (fun f => f / s % K = j) := by
  rcases Nat.eq_zero_or_pos s with hs | hs
  · subst hs
    simp
  · induction P with
    | zero => simp
    | succ P ih =>
      have e1 : (P + 1) * s = P * s + s := by ring
      have e2 : (P + 1) * (K * s) = P * (K * s) + K * s := by ring
      rw [e1, List.range_add, List.map_append, e2, List.range_add, List.filter_append, ih]
      congr 1
      rw [List.map_map, List.filter_map]
      have hcond : ∀ u ∈ List.range (K * s),
          (decide ((fun f => f / s % K = j) ((fun x => P * (K * s) + x) u)) : Bool)
            = decide (u / s % K = j) := by
        intro u _
        have e3 : P * (K * s) + u = s * (P * K) + u := by ring
        rw [decide_eq_decide]
        show (P * (K * s) + u) / s % K = j ↔ u / s % K = j
        rw [e3, Nat.mul_add_div hs]
        have e4 : P * K + u / s = K * P + u / s := by ring
        rw [e4, Nat.mul_add_mod]
      rw [show ((fun f => decide (f / s % K = j)) ∘ (fun x => P * (K * s) + x))
          = (fun u => decide ((fun f => f / s % K = j) ((fun x => P * (K * s) + x) u))) from rfl]
      rw [List.filter_congr hcond, filter_range_block K s j hs hj, List.map_map]
      apply List.map_congr_left
      intro r hr
      rw [List.mem_range] at hr
      simp only [Function.comp_apply]
      have h1 : (P * s + r) / s = P := by
        rw [Nat.mul_comm P s, Nat.mul_add_div hs, Nat.div_eq_of_lt hr, Nat.add_zero]
      have h2 : (P * s + r) % s = r := by
        rw [Nat.mul_comm P s, Nat.mul_add_mod, Nat.mod_eq_of_lt hr]
      rw [h1, h2]
      ring

theorem npTakeFlat_eq_specAxisSlice (a : NpArray) (k j : ℕ) (hk : k < a.shape.length)
    (hj : j < a.shape.getD k 0) :
    npTakeFlat a k j = specAxisSlice a k j := by
  have hprod : a.shape.prod =
      (a.shape.take k).prod * (a.shape.getD k 0 * innerStride a.shape k) := by
    conv_lhs => rw [← List.take_append_drop k a.shape]
    rw [List.prod_append, List.drop_eq_getElem_cons hk, List.prod_cons,
      ← List.getD_eq_getElem a.shape 0 hk]
    rfl
  have hK0 : 0 < a.shape.getD k 0 := Nat.lt_of_le_of_lt (Nat.zero_le j) hj
  have hset : (a.shape.set k 1).prod = (a.shape.take k).prod * innerStride a.shape k := by
    apply Nat.eq_of_mul_eq_mul_right hK0
    rw [prod_set_one a.shape k hk, hprod]
    ring
  unfold npTakeFlat specAxisSlice specAxisCoord
  rw [hset, show a.size = a.shape.prod from a.sizeEq, hprod]
  rw [show (fun f => a.data.getD (f / innerStride a.shape k *
        (a.shape.getD k 0 * innerStride a.shape k)
        + j * innerStride a.shape k + f % innerStride a.shape k) 0)
      = ((fun y => a.data.getD y 0) ∘ (fun f => f / innerStride a.shape k *
        (a.shape.getD k 0 * innerStride a.shape k)
        + j * innerStride a.shape k + f % innerStride a.shape k)) from rfl,
    ← List.map_map,
    mapIdx_eq_filter_range ((a.shape.take k).prod) (a.shape.getD k 0)
      (innerStride a.shape k) j hj]

/-- C7: with all indices in range, the Subset-Mean Evaluator returns a
one-mean tuple of the flat selection when no function axis is given, and one
mean per entry `j` along the function axis — each the mean of the selection
inside the flat slice fixing that axis to `j` — when an axis (existing, of
non-zero size K) is given; correspondingly the measurement count is the
total element count, respectively the total element count divided by K. -/
theorem array_mean_indices_matches_spec (a : NpArray) (indices : List ℤ)
    (func_axis : Option ℕ) (dtype : Option DType)
    (hax : specAxisOk a func_axis)
    (hidx : ∀ i ∈ indices, 0 ≤ i ∧ i < (specCount a func_axis : ℤ)) :
    array_mean_indices a indices func_axis dtype = .ok (specEval a indices func_axis)
    ∧ number_measurements a func_axis = .ok (specCount a func_axis) := by
  cases func_axis with
  | none =>
    refine ⟨?_, rfl⟩
    rw [ami_none_eq a indices dtype hidx]
    rfl
  | some k =>
    obtain ⟨hk, hK⟩ := hax
    have hKne : a.shape.getD k 0 ≠ 0 := Nat.pos_iff_ne_zero.mp hK
    constructor
    · rw [ami_some_eq a k indices dtype hk hKne hidx]
      refine congrArg Except.ok ?_
      simp only [specEval]
      apply List.map_congr_left
      intro j hj
      rw [List.mem_range] at hj
      rw [npTakeFlat_eq_specAxisSlice a k j hk hj]
      rfl
    · rw [number_measurements_some_ok]
      exact ⟨hk, hKne, rfl⟩

/-- C7 witness: the 2×2 array with function axis 0 — the evaluator returns
one spec-slice mean per axis entry and the measurement count is 4/2 = 2. -/
theorem array_mean_indices_matches_spec_witness :
    array_mean_indices exB [0, 1] (some 0) none = .ok (specEval exB [0, 1] (some 0))
    ∧ number_measurements exB (some 0) = .ok (specCount exB (some 0)) :=
  array_mean_indices_matches_spec exB [0, 1] (some 0) none ⟨by decide, by decide⟩ (by decide)

theorem range_split (n i : ℕ) (hi : i < n) :
    List.range n = List.range' 0 i ++ i :: List.range' (i + 1) (n - (i + 1)) := by
  have h := List.range'_append 0 i (n - i) 1
  simp only [Nat.zero_add, Nat.one_mul] at h
  rw [show n - i + i = n from by omega] at h
  rw [List.range_eq_range', ← h]
  congr 1
  rw [show n - i = (n - (i + 1)) + 1 from by omega, List.range'_succ]

theorem specLeaveOut_eq_jkIndices (n i : ℕ) (hi : i < n) :
    specLeaveOut n i = jkIndices i n := by
  unfold specLeaveOut jkIndices
  congr 1
  rw [range_split n i hi, List.filter_append, List.filter_cons]
  have hii : (decide (i ≠ i) : Bool) = false := by
    simp
  rw [hii]
  simp only [Bool.false_eq_true, if_false]
  have h1 : (List.range' 0 i).filter (fun j => j ≠ i) = List.range' 0 i := by
    rw [List.filter_eq_self]
    intro x hx
    rw [List.mem_range'_1] at hx
    simp only [decide_eq_true_eq]
    omega
  have h2 : (List.range' (i + 1) (n - (i + 1))).filter (fun j => j ≠ i) =
      List.range' (i + 1) (n - (i + 1)) := by
    rw [List.filter_eq_self]
    intro x hx
    rw [List.mem_range'_1] at hx
    simp only [decide_eq_true_eq]
    omega
  rw [h1, h2]

theorem exceptMap_ok_length (f : α → Except PyError β) :
    ∀ (l : List α) (ys : List β), exceptMap f l = .ok ys → ys.length = l.length := by
  intro l
  induction l with
  | nil =>
    intro ys h
    cases h
    rfl
  | cons x xs ih =>
    intro ys h
    cases hx : f x with
    | error e => rw [exceptMap, hx, ebind_error] at h; cases h
    | ok y =>
      rw [exceptMap, hx, ebind_ok] at h
      cases hxs : exceptMap f xs with
      | error e => rw [hxs, ebind_error] at h; cases h
      | ok ys' =>
        rw [hxs, ebind_ok] at h
        cases h
        rw [List.length_cons, ih ys' hxs, List.length_cons]

theorem specLeaveOut_bounds (n i : ℕ) (hi : i < n) :
    ∀ x ∈ specLeaveOut n i, 0 ≤ x ∧ x < (n : ℤ) := by
  rw [specLeaveOut_eq_jkIndices n i hi]
  exact jkIndices_bounds i n hi

theorem specJackknifeValues_ok (a : NpArray) (func : List NpFloat → NpFloat)
    (func_axis : Option ℕ) (dtype : Option DType) (n : ℕ)
    (hn : number_measurements a func_axis = .ok n) :
    ∃ vals, specJackknifeValues a func func_axis dtype n = .ok vals ∧ vals.length = n := by
  have hok : ∃ vals, specJackknifeValues a func func_axis dtype n = .ok vals := by
    apply exceptMap_ok_of_forall
    intro i hi
    obtain ⟨ms, hms⟩ := array_mean_indices_ok a (specLeaveOut n i) func_axis dtype n hn
      (specLeaveOut_bounds n i (List.mem_range.mp hi))
    exact ⟨func ms, by rw [hms, emap_ok]⟩
  obtain ⟨vals, hvals⟩ := hok
  refine ⟨vals, hvals, ?_⟩
  rw [exceptMap_ok_length _ _ _ hvals, List.length_range]

theorem npMeanF_eq_specMeanF (xs : List NpFloat) : npMeanF xs = specMeanF xs := rfl

theorem npStdSq_eq_specPopVarF (xs : List NpFloat) : npStdSq xs = specPopVarF xs := rfl

/-- C1: with a measurement count of at least two, `jackknife` returns
exactly the pair the spec prescribes: the arithmetic mean of the N resample
values (resample value i being the function applied to the subset mean over
all positions except i) and — in squared form — `(N − 1)` times the
population variance (the square of the population standard deviation,
normalized by N and not N − 1) of those N resample values. -/
theorem jackknife_matches_spec (a : NpArray) (func : List NpFloat → NpFloat)
    (func_axis : Option ℕ) (dtype : Option DType) (n : ℕ)
    (hn : number_measurements a func_axis = .ok n) (h2 : 2 ≤ n) :
    ∃ vals, specJackknifeValues a func func_axis dtype n = .ok vals ∧ vals.length = n ∧
      jackknife a func func_axis dtype =
        .ok (specMeanF vals, npScale ((n : ℚ) - 1) (specPopVarF vals)) := by
  obtain ⟨vals, hvals, hlen⟩ := specJackknifeValues_ok a func func_axis dtype n hn
  refine ⟨vals, hvals, hlen, ?_⟩
  unfold jackknife
  rw [hn, ebind_ok]
  have hcongr : exceptMap
      (fun i => (array_mean_indices a (jkIndices i n) func_axis dtype).map func)
      (List.range n) = specJackknifeValues a func func_axis dtype n := by
    unfold specJackknifeValues
    apply exceptMap_congr
    intro i hi
    rw [specLeaveOut_eq_jkIndices n i (List.mem_range.mp hi)]
  rw [hcongr, hvals, ebind_ok]
  have hge : (2 : ℚ) ≤ (n : ℚ) := by exact_mod_cast h2
  have hsq : pySqrtSq ((n : ℚ) - 1) = .ok ((n : ℚ) - 1) := by
    unfold pySqrtSq
    rw [if_neg (by linarith)]
  rw [hsq, ebind_ok]
  rw [show npMeanF vals = specMeanF vals from rfl,
    show npStdSq vals = specPopVarF vals from rfl]
  rfl

/-- C1 witness: the two-measurement array `[1, 3]` with the identity
function — the spec-side resample values exist and the jackknife result is
the spec pair. -/
theorem jackknife_matches_spec_witness :
    ∃ vals, specJackknifeValues exA2 identity none none 2 = .ok vals ∧ vals.length = 2 ∧
      jackknife exA2 identity none none =
        .ok (specMeanF vals, npScale (((2 : ℕ) : ℚ) - 1) (specPopVarF vals)) :=
  jackknife_matches_spec exA2 identity none none 2 rfl (by decide)

theorem specBootstrapValues_ok (a : NpArray) (func : List NpFloat → NpFloat)
    (func_axis : Option ℕ) (dtype : Option DType) (rand : ℕ → List ℤ) (iters : ℕ) (n : ℕ)
    (hn : number_measurements a func_axis = .ok n)
    (hrand : ∀ i, i < iters → ∀ x ∈ rand i, 0 ≤ x ∧ x < (n : ℤ)) :
    ∃ vals, specBootstrapValues a func func_axis dtype rand iters = .ok vals ∧
      vals.length = iters := by
  have hok : ∃ vals, specBootstrapValues a func func_axis dtype rand iters = .ok vals := by
    apply exceptMap_ok_of_forall
    intro i hi
    obtain ⟨ms, hms⟩ := array_mean_indices_ok a (rand i) func_axis dtype n hn
      (hrand i (List.mem_range.mp hi))
    exact ⟨func ms, by rw [hms, emap_ok]⟩
  obtain ⟨vals, hvals⟩ := hok
  refine ⟨vals, hvals, ?_⟩
  rw [exceptMap_ok_length _ _ _ hvals, List.length_range]

/-- C3: with at least one measurement and at least two iterations, each
bootstrap resample value is the function applied to the subset mean over the
`i`-th random draw — `N` indices drawn (with replacement, by the external
uniform source) from `[0, N)`, the interface contract stated as the
hypotheses on the oracle — and the result is exactly the pair the spec
prescribes: the arithmetic mean of the resample values, and — in squared
form — `iterations/(iterations − 1)` times the population variance of the
resample values. -/
theorem bootstrap_matches_spec (a : NpArray) (iterations : ℤ)
    (func : List NpFloat → NpFloat) (func_axis : Option ℕ) (dtype : Option DType)
    (rand : ℕ → List ℤ) (n : ℕ)
    (hn : number_measurements a func_axis = .ok n) (hN : 1 ≤ n)
    (hlen : ∀ i, i < iterations.toNat → (rand i).length = n)
    (hrand : ∀ i, i < iterations.toNat → ∀ x ∈ rand i, 0 ≤ x ∧ x < (n : ℤ))
    (hit : 2 ≤ iterations) :
    ∃ vals, specBootstrapValues a func func_axis dtype rand iterations.toNat = .ok vals ∧
      vals.length = iterations.toNat ∧
      bootstrap a iterations func func_axis dtype rand =
        .ok (specMeanF vals,
          npScale ((iterations : ℚ) / ((iterations : ℚ) - 1)) (specPopVarF vals)) := by
  obtain ⟨vals, hvals, hlenv⟩ :=
    specBootstrapValues_ok a func func_axis dtype rand iterations.toNat n hn hrand
  refine ⟨vals, hvals, hlenv, ?_⟩
  rw [bootstrap_unfold a iterations func func_axis dtype rand n hn]
  have hcongr : exceptMap (fun i => np_randint 0 (n : ℤ) (rand i) >>= fun idx =>
      (array_mean_indices a idx func_axis dtype).map func) (List.range iterations.toNat)
      = specBootstrapValues a func func_axis dtype rand iterations.toNat := by
    unfold specBootstrapValues
    apply exceptMap_congr
    intro i _
    rw [show np_randint 0 (n : ℤ) (rand i) = .ok (rand i) from by
      unfold np_randint
      rw [if_pos (by omega)], ebind_ok]
  rw [hcongr, hvals, ebind_ok]
  obtain ⟨hq, hc⟩ := ratio_tail_ok iterations (by omega)
  rw [hq, ebind_ok, hc, ebind_ok]
  rw [show npMeanF vals = specMeanF vals from rfl,
    show npStdSq vals = specPopVarF vals from rfl]
  rfl

/-- C3 witness: the two-measurement array `[1, 3]` with two iterations and
the draw `[0, 0]` on each iteration. -/
theorem bootstrap_matches_spec_witness :
    ∃ vals, specBootstrapValues exA2 identity none none (fun _ => [0, 0])
        ((2 : ℤ)).toNat = .ok vals ∧
      vals.length = ((2 : ℤ)).toNat ∧
      bootstrap exA2 2 identity none none (fun _ => [0, 0]) =
        .ok (specMeanF vals,
          npScale (((2 : ℤ) : ℚ) / (((2 : ℤ) : ℚ) - 1)) (specPopVarF vals)) :=
  bootstrap_matches_spec exA2 2 identity none none (fun _ => [0, 0]) 2 rfl
    (by decide) (fun i _ => rfl)
    (by
      intro i _ x hx
      simp only [List.mem_cons, List.mem_singleton] at hx
      rcases hx with rfl | rfl | h
      · exact ⟨le_refl 0, by decide⟩
      · exact ⟨le_refl 0, by decide⟩
      · cases h)
    (by decide)

theorem specSubsamplingValues_ok (a : NpArray) (func : List NpFloat → NpFloat)
    (func_axis : Option ℕ) (dtype : Option DType) (perm : ℕ → List ℕ)
    (samples iters : ℕ) (n : ℕ)
    (hn : number_measurements a func_axis = .ok n)
    (hperm : ∀ i, i < iters → ∀ x ∈ perm i, x < n) :
    ∃ vals, specSubsamplingValues a func func_axis dtype perm samples iters = .ok vals ∧
      vals.length = iters := by
  have hok : ∃ vals,
      specSubsamplingValues a func func_axis dtype perm samples iters = .ok vals := by
    apply exceptMap_ok_of_forall
    intro i hi
    have hidx : ∀ x ∈ ((perm i).take samples).map (fun j => Int.ofNat j),
        0 ≤ x ∧ x < (n : ℤ) := by
      intro x hx
      obtain ⟨j, hj, rfl⟩ := List.mem_map.mp hx
      have hj' : j < n := hperm i (List.mem_range.mp hi) j (List.take_subset _ _ hj)
      simp only [Int.ofNat_eq_coe]
      omega
    obtain ⟨ms, hms⟩ := array_mean_indices_ok a _ func_axis dtype n hn hidx
    exact ⟨func ms, by rw [hms, emap_ok]⟩
  obtain ⟨vals, hvals⟩ := hok
  refine ⟨vals, hvals, ?_⟩
  rw [exceptMap_ok_length _ _ _ hvals, List.length_range]

/-- C5: with a permutation oracle drawing a uniformly random permutation of
`[0, N)` per iteration (the external collaborator's contract, stated as a
hypothesis), `1 ≤ samples ≤ N` and at least two iterations: every index
subset — the first `samples` entries of the iteration's permutation — has
exactly `samples` pairwise distinct indices, and `subsampling` returns
exactly the pair the spec prescribes: the arithmetic mean of the resample
values (the function applied to the subset means) and — in squared form —
`samples/(iterations × (iterations − 1))` times the population variance of
the resample values. -/
theorem subsampling_matches_spec (a : NpArray) (samples iterations : ℤ)
    (func : List NpFloat → NpFloat) (func_axis : Option ℕ) (dtype : Option DType)
    (perm : ℕ → List ℕ) (n : ℕ)
    (hn : number_measurements a func_axis = .ok n)
    (hperm : ∀ i, i < iterations.toNat → (perm i).Perm (List.range n))
    (hs1 : 1 ≤ samples) (hsN : samples ≤ (n : ℤ)) (hit : 2 ≤ iterations) :
    (∀ i, i < iterations.toNat →
      ((perm i).take samples.toNat).length = samples.toNat
      ∧ ((perm i).take samples.toNat).Nodup)
    ∧ ∃ vals, specSubsamplingValues a func func_axis dtype perm
          samples.toNat iterations.toNat = .ok vals ∧
        vals.length = iterations.toNat ∧
        subsampling a samples iterations func func_axis dtype perm =
          .ok (specMeanF vals,
            npScale ((samples : ℚ) / ((iterations : ℚ) * ((iterations : ℚ) - 1)))
              (specPopVarF vals)) := by
  have hmem : ∀ i, i < iterations.toNat → ∀ x ∈ perm i, x < n := by
    intro i hi x hx
    have := (hperm i hi).mem_iff.mp hx
    exact List.mem_range.mp this
  constructor
  · intro i hi
    constructor
    · rw [List.length_take, (hperm i hi).length_eq, List.length_range]
      omega
    · exact List.Nodup.sublist (List.take_sublist _ _)
        ((hperm i hi).nodup_iff.mpr (List.nodup_range n))
  · obtain ⟨vals, hvals, hlenv⟩ := specSubsamplingValues_ok a func func_axis dtype perm
      samples.toNat iterations.toNat n hn hmem
    refine ⟨vals, hvals, hlenv, ?_⟩
    rw [subsampling_unfold a samples iterations func func_axis dtype perm n hn]
    have hcongr : exceptMap (fun i => (array_mean_indices a
        ((pySlice0 (perm i) samples).map (fun j => Int.ofNat j)) func_axis dtype).map func)
        (List.range iterations.toNat)
        = specSubsamplingValues a func func_axis dtype perm samples.toNat
            iterations.toNat := by
      unfold specSubsamplingValues
      apply exceptMap_congr
      intro i _
      rw [show pySlice0 (perm i) samples = (perm i).take samples.toNat from by
        unfold pySlice0
        rw [if_pos (by omega)]]
    rw [hcongr, hvals, ebind_ok]
    have hd : (0 : ℤ) < iterations * (iterations - 1) := mul_pos (by omega) (by omega)
    have hdQ : (0 : ℚ) < (((iterations * (iterations - 1) : ℤ)) : ℚ) := by exact_mod_cast hd
    have hq : pyDiv (samples : ℚ) (((iterations * (iterations - 1) : ℤ)) : ℚ) =
        .ok ((samples : ℚ) / (((iterations * (iterations - 1) : ℤ)) : ℚ)) := by
      unfold pyDiv
      rw [if_neg (ne_of_gt hdQ)]
    have hsnn : (0 : ℚ) ≤ (samples : ℚ) := by
      exact_mod_cast (by omega : (0 : ℤ) ≤ samples)
    have hsq2 : pySqrtSq ((samples : ℚ) / (((iterations * (iterations - 1) : ℤ)) : ℚ)) =
        .ok ((samples : ℚ) / (((iterations * (iterations - 1) : ℤ)) : ℚ)) := by
      unfold pySqrtSq
      rw [if_neg (not_lt.mpr (div_nonneg hsnn (le_of_lt hdQ)))]
    rw [hq, ebind_ok, hsq2, ebind_ok]
    rw [show (((iterations * (iterations - 1) : ℤ)) : ℚ)
        = (iterations : ℚ) * ((iterations : ℚ) - 1) from by push_cast; ring]
    rw [show npMeanF vals = specMeanF vals from rfl,
      show npStdSq vals = specPopVarF vals from rfl]
    rfl

/-- C5 witness: the two-measurement array `[1, 3]`, subset size 1, two
iterations and the permutation `[0, 1]` on each iteration. -/
theorem subsampling_matches_spec_witness :
    (∀ i, i < ((2 : ℤ)).toNat →
      ((([0, 1] : List ℕ).take ((1 : ℤ)).toNat).length = ((1 : ℤ)).toNat
      ∧ (([0, 1] : List ℕ).take ((1 : ℤ)).toNat).Nodup))
    ∧ ∃ vals, specSubsamplingValues exA2 identity none none (fun _ => [0, 1])
          ((1 : ℤ)).toNat ((2 : ℤ)).toNat = .ok vals ∧
        vals.length = ((2 : ℤ)).toNat ∧
        subsampling exA2 1 2 identity none none (fun _ => [0, 1]) =
          .ok (specMeanF vals,
            npScale (((1 : ℤ) : ℚ) / (((2 : ℤ) : ℚ) * (((2 : ℤ) : ℚ) - 1)))
              (specPopVarF vals)) :=
  subsampling_matches_spec exA2 1 2 identity none none (fun _ => [0, 1]) 2 rfl
    (fun _ _ => List.Perm.refl _) (by decide) (by decide) (by decide)

theorem map_getD_range : ∀ l : List ℚ, (List.range l.length).map (fun x => l.getD x 0) = l := by
  intro l
  induction l with
  | nil => rfl
  | cons x xs ih =>
    rw [List.length_cons, List.range_succ_eq_map, List.map_cons, List.map_map,
      show ((fun y => (x :: xs).getD y 0) ∘ Nat.succ) = (fun i => xs.getD i 0) from by
      funext i
      rw [Function.comp_apply, List.getD_cons_succ], ih]
    rfl

theorem floatVals_map_val (g : α → ℚ) :
    ∀ l : List α, floatVals (l.map (fun i => NpFloat.val (g i))) = some (l.map g) := by
  intro l
  induction l with
  | nil => rfl
  | cons x xs ih =>
    rw [List.map_cons, List.map_cons,
      show floatVals (NpFloat.val (g x) :: xs.map (fun i => NpFloat.val (g i)))
        = (floatVals (xs.map (fun i => NpFloat.val (g i)))).map (fun l => g x :: l) from rfl,
      ih]
    rfl

theorem npMeanF_map_val (g : α → ℚ) (l : List α) :
    npMeanF (l.map (fun i => NpFloat.val (g i)))
      = if (l.map g).length = 0 then NpFloat.nan
        else NpFloat.val ((l.map g).sum / ((l.map g).length : ℚ)) := by
  unfold npMeanF
  rw [floatVals_map_val]

theorem sum_map_range_sub (n : ℕ) (S : ℚ) (g : ℕ → ℚ) :
    ((List.range n).map (fun i => S - g i)).sum = n * S - ((List.range n).map g).sum := by
  induction n with
  | zero => simp
  | succ n ih =>
    rw [List.range_succ, List.map_append, List.map_append, List.sum_append,
      List.sum_append, ih]
    simp only [List.map_cons, List.map_nil, List.sum_cons, List.sum_nil]
    push_cast
    ring

/-- C10: with at least two measurements, the first component of the default
jackknife (identity function, no function axis, any dtype) is exactly the
arithmetic mean of the whole array — in exact arithmetic the average of the
N leave-one-out means is the full-sample mean. -/
theorem jackknife_identity_mean (a : NpArray) (dtype : Option DType) (h2 : 2 ≤ a.size) :
    ∃ e, jackknife a identity none dtype =
      .ok (.val (a.data.sum / (a.size : ℚ)), e) := by
  have hvals2 : exceptMap
      (fun i => (array_mean_indices a (jkIndices i a.size) none dtype).map identity)
      (List.range a.size)
      = .ok ((List.range a.size).map
          (fun i => NpFloat.val ((a.data.sum - a.data.getD i 0) / ((a.size : ℚ) - 1)))) := by
    rw [jackknife_values_ok_none a identity dtype]
    refine congrArg Except.ok ?_
    apply List.map_congr_left
    intro i hi
    rw [List.mem_range] at hi
    have hg : (jkIndices i a.size).map (fun x => a.data.getD x.toNat 0)
        = (List.range' 0 i).map (fun j => a.data.getD j 0)
          ++ (List.range' (i + 1) (a.size - (i + 1))).map (fun j => a.data.getD j 0) := by
      unfold jkIndices
      rw [List.map_map, List.map_append]
      rfl
    have hlen : ((jkIndices i a.size).map (fun x => a.data.getD x.toNat 0)).length
        = a.size - 1 := by
      rw [hg, List.length_append, List.length_map, List.length_map,
        List.length_range' 0 1 i, List.length_range' (i + 1) 1 (a.size - (i + 1))]
      omega
    have hdata : a.data = (List.range' 0 i).map (fun j => a.data.getD j 0)
        ++ a.data.getD i 0 :: (List.range' (i + 1) (a.size - (i + 1))).map
          (fun j => a.data.getD j 0) := by
      conv_lhs => rw [← map_getD_range a.data]
      rw [show a.data.length = a.size from rfl, range_split a.size i hi, List.map_append,
        List.map_cons]
    have hsum : ((jkIndices i a.size).map (fun x => a.data.getD x.toNat 0)).sum
        = a.data.sum - a.data.getD i 0 := by
      rw [hg, List.sum_append]
      have hd := congrArg List.sum hdata
      rw [List.sum_append, List.sum_cons] at hd
      linarith
    show identity [npMean dtype ((jkIndices i a.size).map (fun x => a.data.getD x.toNat 0))]
      = NpFloat.val ((a.data.sum - a.data.getD i 0) / ((a.size : ℚ) - 1))
    rw [show identity [npMean dtype
        ((jkIndices i a.size).map (fun x => a.data.getD x.toNat 0))]
      = npMean dtype ((jkIndices i a.size).map (fun x => a.data.getD x.toNat 0)) from rfl]
    unfold npMean
    rw [if_neg (by rw [hlen]; omega), hlen, hsum]
    congr 1
    rw [Nat.cast_sub (by omega : 1 ≤ a.size)]
    norm_num
  refine ⟨npScale ((a.size : ℚ) - 1) (npStdSq ((List.range a.size).map
    (fun i => NpFloat.val ((a.data.sum - a.data.getD i 0) / ((a.size : ℚ) - 1))))), ?_⟩
  unfold jackknife
  rw [show number_measurements a none = .ok a.size from rfl, ebind_ok, hvals2, ebind_ok]
  have hge : (2 : ℚ) ≤ (a.size : ℚ) := by exact_mod_cast h2
  have hsq : pySqrtSq ((a.size : ℚ) - 1) = .ok ((a.size : ℚ) - 1) := by
    unfold pySqrtSq
    rw [if_neg (by linarith)]
  rw [hsq, ebind_ok]
  have hmean : npMeanF ((List.range a.size).map
      (fun i => NpFloat.val ((a.data.sum - a.data.getD i 0) / ((a.size : ℚ) - 1))))
      = NpFloat.val (a.data.sum / (a.size : ℚ)) := by
    rw [npMeanF_map_val]
    rw [if_neg (by rw [List.length_map, List.length_range]; omega)]
    have hS : ((List.range a.size).map (fun j => a.data.getD j 0)).sum = a.data.sum := by
      rw [show a.size = a.data.length from rfl, map_getD_range a.data]
    have hsum2 : ((List.range a.size).map
        (fun i => (a.data.sum - a.data.getD i 0) / ((a.size : ℚ) - 1))).sum
        = ((a.size : ℚ) * a.data.sum - a.data.sum) * ((a.size : ℚ) - 1)⁻¹ := by
      rw [show (fun i => (a.data.sum - a.data.getD i 0) / ((a.size : ℚ) - 1))
          = (fun i => (a.data.sum - a.data.getD i 0) * ((a.size : ℚ) - 1)⁻¹) from by
        funext i
        rw [div_eq_mul_inv]]
      rw [List.sum_map_mul_right, sum_map_range_sub, hS]
    rw [hsum2, List.length_map, List.length_range]
    have hne : (a.size : ℚ) - 1 ≠ 0 := by
      intro h
      rw [sub_eq_zero] at h
      linarith
    have hne2 : (a.size : ℚ) ≠ 0 := by
      intro h
      linarith
    congr 1
    field_simp
    ring
  rw [show (pure (npMeanF ((List.range a.size).map
      (fun i => NpFloat.val ((a.data.sum - a.data.getD i 0) / ((a.size : ℚ) - 1)))),
      npScale ((a.size : ℚ) - 1) (npStdSq ((List.range a.size).map
      (fun i => NpFloat.val ((a.data.sum - a.data.getD i 0) / ((a.size : ℚ) - 1))))))
      : Except PyError (NpFloat × NpFloat))
    = .ok (npMeanF ((List.range a.size).map
      (fun i => NpFloat.val ((a.data.sum - a.data.getD i 0) / ((a.size : ℚ) - 1)))),
      npScale ((a.size : ℚ) - 1) (npStdSq ((List.range a.size).map
      (fun i => NpFloat.val ((a.data.sum - a.data.getD i 0) / ((a.size : ℚ) - 1))))))
    from rfl, hmean]

/-- C10 witness: the array `[1, 3]` — the jackknife mean is the full-sample
mean `(1 + 3)/2`. -/
theorem jackknife_identity_mean_witness :
    2 ≤ exA2.size ∧ ∃ e, jackknife exA2 identity none none =
      .ok (.val (exA2.data.sum / (exA2.size : ℚ)), e) :=
  ⟨by decide, jackknife_identity_mean exA2 none (by decide)⟩

end Resampling
